import Mathlib

/-!
Verification development for the expression-style recognition engine
(`Expression_style_recognition.py`).

Times, durations and pitch values are modelled as rationals (`ℚ`); the
source manipulates NumPy float arrays, but every operation involved in the
claims is exact arithmetic and comparison, so `ℚ` is a faithful carrier.
Index-driven `for`/`while` loops that mutate arrays in place are embedded
as structurally recursive functions threading the array state, with a fuel
argument equal to the number of remaining loop iterations (each Python loop
runs at most `len` iterations and every caller passes fuel `len`, so the
fuel never runs out on the executions the source performs).  Loop bodies
that use an intermediate value several times receive it as an explicit
argument of a helper function.
-/

set_option linter.unusedVariables false

/-- Raw note event `[pitch(MIDI#), onset(sec), duration(sec)]`, one row of the
note arrays the detectors consume. -/
structure Note where
  pitch : ℚ
  onset : ℚ
  dur : ℚ
deriving DecidableEq, Repr

instance : Inhabited Note := ⟨⟨0, 0, 0⟩⟩

/-- One row of the `expression_style_note` array: pitch, onset, duration and
the nine technique columns (indices 3..11 in the source). -/
structure ESNRow where
  pitch : ℚ
  onset : ℚ
  duration : ℚ
  preBend : ℚ
  bend : ℚ
  release : ℚ
  pull : ℚ
  hammer : ℚ
  slide : ℚ
  slideIn : ℚ
  slideOut : ℚ
  vibrato : ℚ
deriving DecidableEq, Repr

instance : Inhabited ESNRow := ⟨⟨0, 0, 0, 0, 0, 0, 0, 0, 0, 0, 0, 0⟩⟩

/-- One row of a classifier-result array: candidate window start, end and the
predicted label (`candi_result[0]`, `candi_result[1]`, `candi_result[-1]`). -/
structure CRow where
  cstart : ℚ
  cend : ℚ
  clabel : ℚ
deriving DecidableEq, Repr

instance : Inhabited CRow := ⟨⟨0, 0, 0⟩⟩

/-- The technique names accepted by `Common.update_esn` / `Common.update_ts`
(the `if technique=='pre-bend': t = 3 / elif ...` chain). -/
inductive Technique where
  | preBend
  | bend
  | release
  | pull
  | hamm
  | slide
  | slideIn
  | slideOut
  | vibrato
deriving DecidableEq, Repr

/-- Column index assigned to each technique name by the `if/elif` chain at the
top of `Common.update_esn` (`'pre-bend'→3`, …, `'vibrato'→11`). -/
def techIdx : Technique → Nat
  | .preBend => 3
  | .bend => 4
  | .release => 5
  | .pull => 6
  | .hamm => 7
  | .slide => 8
  | .slideIn => 9
  | .slideOut => 10
  | .vibrato => 11

/-- Read technique column `c` (3..11) of an ESN row; other indices are never
read by the embedded code and return 0. -/
def getCol (r : ESNRow) (c : Nat) : ℚ :=
  if c = 3 then r.preBend
  else if c = 4 then r.bend
  else if c = 5 then r.release
  else if c = 6 then r.pull
  else if c = 7 then r.hammer
  else if c = 8 then r.slide
  else if c = 9 then r.slideIn
  else if c = 10 then r.slideOut
  else if c = 11 then r.vibrato
  else 0

/-- Write technique column `c` (3..11) of an ESN row (`esn[r,c] = v`); other
indices are never written by the embedded code and leave the row unchanged. -/
def setCol (r : ESNRow) (c : Nat) (v : ℚ) : ESNRow :=
  if c = 3 then { r with preBend := v }
  else if c = 4 then { r with bend := v }
  else if c = 5 then { r with release := v }
  else if c = 6 then { r with pull := v }
  else if c = 7 then { r with hammer := v }
  else if c = 8 then { r with slide := v }
  else if c = 9 then { r with slideIn := v }
  else if c = 10 then { r with slideOut := v }
  else if c = 11 then { r with vibrato := v }
  else r

/-- Embedding of `np.delete(arr, indices, axis=0)`: keep the rows whose index
(starting at `i`) is not listed in `dels`.  Duplicate indices in `dels` are
harmless, exactly as for `np.delete`. -/
def deleteRowsGo {α : Type} (dels : List Nat) : Nat → List α → List α
  | _, [] => []
  | i, r :: rs =>
    if dels.contains i then deleteRowsGo dels (i + 1) rs
    else r :: deleteRowsGo dels (i + 1) rs

/-- The inner `for r_esn_r in range(r_esn+1, len(expression_style_note))` walk
of `Common.update_esn`, reading the suffix of the ESN table that starts at
index `j`.  Returns the indices appended to `note_to_be_deleted` by this walk
together with `true` when the walk hit a `break` (in which case the matched
row gets shrunk and tagged) and `false` when the loop ran off the end. -/
def esnWalkAux (dOff : ℚ) : Nat → List ESNRow → List Nat × Bool
  | _, [] => ([], false)
  | j, row :: rest =>
    if row.onset + row.duration ≥ dOff then
      if row.onset > dOff then ([], true) else ([j], true)
    else
      let w := esnWalkAux dOff (j + 1) rest
      (j :: w.1, w.2)

/-- State update of `Common.update_esn` for a matched row `i` that is shorter
than the detected note, given the result `w` of the forward walk: when the
walk hit a `break`, row `i` is shrunk to the detected duration and tagged in
column `tIdx`; the walk's collected indices join `note_to_be_deleted`. -/
def esnApplyWalk (tIdx : Nat) (sub : ℚ) (d : Note) (i : Nat)
    (st : List ESNRow × List Nat) (w : List Nat × Bool) : List ESNRow × List Nat :=
  (if w.2 then
      st.1.set i (setCol { st.1.getD i default with duration := d.dur } tIdx sub)
    else st.1,
   st.2 ++ w.1)

/-- One pass of the `for r_esn in range(len(expression_style_note))` loop of
`Common.update_esn` for a single detected note `d`, starting at row index `i`
with `fuel` iterations left.  The state is the ESN table together with the
accumulated `note_to_be_deleted` index list; the table's length never changes
inside the loop (rows are only overwritten with `List.set`). -/
def esnScanFrom (tIdx : Nat) (sub : ℚ) (d : Note) :
    Nat → Nat → List ESNRow × List Nat → List ESNRow × List Nat
  | 0, _, st => st
  | fuel + 1, i, st =>
    if i < st.1.length then
      if d.onset = (st.1.getD i default).onset then
        if (st.1.getD i default).duration ≥ d.dur then
          esnScanFrom tIdx sub d fuel (i + 1)
            (st.1.set i (setCol { st.1.getD i default with duration := d.dur } tIdx sub),
             st.2)
        else
          esnScanFrom tIdx sub d fuel (i + 1)
            (esnApplyWalk tIdx sub d i st
              (esnWalkAux (d.onset + d.dur) (i + 1) (st.1.drop (i + 1))))
      else esnScanFrom tIdx sub d fuel (i + 1) st
    else st

/-- Embedding of `Common.update_esn`: for each detected note, scan the ESN
table for rows with the same onset, shrink/tag matches (walking forward over
absorbed rows when the match is shorter than the detection), and finally
delete all rows collected in `note_to_be_deleted` in one batch. -/
def update_esn (esn : List ESNRow) (dnotes : List Note) (tech : Technique) (sub : ℚ) :
    List ESNRow :=
  let p := dnotes.foldl
    (fun st d => esnScanFrom (techIdx tech) sub d st.1.length 0 st) (esn, [])
  deleteRowsGo p.2 0 p.1

/-- Sign function `np.sign` on rationals. -/
def qsign (x : ℚ) : ℚ :=
  if x < 0 then -1 else if x = 0 then 0 else 1

/-- Zero out the pitch column of rows `a..b` of the note array, walking the
list with an index counter. -/
def zeroPitchesGo (a b : Nat) : Nat → List Note → List Note
  | _, [] => []
  | i, r :: rs =>
    (if a ≤ i ∧ i ≤ b then { r with pitch := 0 } else r) :: zeroPitchesGo a b (i + 1) rs

/-- Zero out the pitch column of rows `a..b` (`note[a:b+1,0] = 0`), marking
them as consumed so they are not reconsidered as run starts. -/
def zeroPitches (note : List Note) (a b : Nat) : List Note :=
  zeroPitchesGo a b 0 note

/-- The `while` loop inside `WildVibrato.identify_serrated_pattern` that
extends a serrated run: keep advancing `offset_note` while the next pitch step
has magnitude `extent`, its sign alternates with the previous step's `sign`,
the inter-note gap is below 0.01 s, and `offset_note+1 < len-1`.  (The body's
inner `if offset_note+1 < len-1` re-test is implied by the loop condition, so
the `else: break` branch is dead code and the body always increments.) -/
def serratedWhile (note : List Note) (extent : ℚ) : Nat → ℚ → Nat → Nat
  | 0, _, offn => offn
  | fuel + 1, sign, offn =>
    let cur := note.getD offn default
    let nxt := note.getD (offn + 1) default
    if |nxt.pitch - cur.pitch| = extent ∧ qsign (nxt.pitch - cur.pitch) ≠ sign ∧
        nxt.onset - (cur.onset + cur.dur) < 1/100 ∧ offn + 2 < note.length then
      serratedWhile note extent fuel (qsign (nxt.pitch - cur.pitch)) (offn + 1)
    else offn

/-- State update of `identify_serrated_pattern` once a run `n..offn` has been
traced: merge the run into a single note if it spans at least five notes
(recording it as wild vibrato), otherwise copy the run's notes through
unmerged; in both cases zero the consumed pitches. -/
def serratedRunState (st : List Note × List Note × List Note) (n : Nat) (offn : Nat) :
    List Note × List Note × List Note :=
  (zeroPitches st.1 n offn,
   (if offn - n + 1 ≥ 5 then
      st.2.1 ++ [⟨(st.1.getD n default).pitch, (st.1.getD n default).onset,
        (st.1.getD offn default).onset + (st.1.getD offn default).dur -
          (st.1.getD n default).onset⟩]
    else st.2.1 ++ (st.1.drop n).take (offn - n + 1),
    if offn - n + 1 ≥ 5 then
      st.2.2 ++ [⟨(st.1.getD n default).pitch, (st.1.getD n default).onset,
        (st.1.getD offn default).onset + (st.1.getD offn default).dur -
          (st.1.getD n default).onset⟩]
    else st.2.2))

/-- The main `for n in range(note.shape[0])` loop of
`WildVibrato.identify_serrated_pattern`.  The state is the (pitch-zeroed) note
array together with the `merged_notes` and `wild_vibrato` accumulators. -/
def serratedScan (extent : ℚ) :
    Nat → Nat → List Note × List Note × List Note → List Note × List Note
  | 0, _, st => (st.2.1, st.2.2)
  | fuel + 1, n, st =>
    if (st.1.getD n default).pitch ≠ 0 ∧ n + 1 < st.1.length then
      if (st.1.getD (n + 1) default).pitch - (st.1.getD n default).pitch = extent ∧
          (st.1.getD (n + 1) default).onset -
            ((st.1.getD n default).onset + (st.1.getD n default).dur) < 1/100 then
        serratedScan extent fuel (n + 1)
          (serratedRunState st n
            (if n + 1 + 2 ≤ st.1.length then
              serratedWhile st.1 extent st.1.length
                (qsign ((st.1.getD (n + 1) default).pitch - (st.1.getD n default).pitch))
                (n + 1)
            else n + 1))
      else
        serratedScan extent fuel (n + 1) (st.1, st.2.1 ++ [st.1.getD n default], st.2.2)
    else if (st.1.getD n default).pitch ≠ 0 ∧ n < st.1.length ∧ ¬ n + 1 < st.1.length then
      serratedScan extent fuel (n + 1)
        (st.1, st.2.1 ++ [st.1.getD (st.1.length - 1) default], st.2.2)
    else serratedScan extent fuel (n + 1) st

/-- Embedding of `WildVibrato.identify_serrated_pattern`: merge serrated
(zig-zag) note runs of at least five notes into single notes, returning the
merged note list and the wild-vibrato detections. -/
def identify_serrated_pattern (note : List Note) (extent : ℚ) : List Note × List Note :=
  serratedScan extent note.length 0 (note, [], [])

/-- The `while` loop inside `LongSlide.detect` that traces a downward ladder:
advance while the next note's pitch is one step lower, its duration lies in
`[minD, maxD]`, and `offset_note+2 < len`. -/
def ladderWhile (note : List Note) (minD maxD : ℚ) : Nat → Nat → Nat
  | 0, offn => offn
  | fuel + 1, offn =>
    let cur := note.getD offn default
    let nxt := note.getD (offn + 1) default
    if nxt.pitch + 1 = cur.pitch ∧ nxt.dur ≥ minD ∧ nxt.dur ≤ maxD ∧
        offn + 2 < note.length then
      ladderWhile note minD maxD fuel (offn + 1)
    else offn

/-- State update of the ladder scan once a ladder `n..offn` has been traced:
register `(onset_time, offset_time)` if the ladder has at least five steps and
zero the consumed pitches. -/
def ladderRunState (st : List Note × List (ℚ × ℚ)) (n : Nat) (offn : Nat) :
    List Note × List (ℚ × ℚ) :=
  (zeroPitches st.1 n offn,
   if offn - n + 1 ≥ 5 then
     st.2 ++ [((st.1.getD n default).onset,
       (st.1.getD offn default).onset + (st.1.getD offn default).dur)]
   else st.2)

/-- The `for n in range(note.shape[0]-1)` ladder scan of `LongSlide.detect`,
accumulating `long_slide_sec` rows and zeroing consumed pitches. -/
def ladderScanGo (minD maxD : ℚ) :
    Nat → Nat → List Note × List (ℚ × ℚ) → List (ℚ × ℚ)
  | 0, _, st => st.2
  | fuel + 1, n, st =>
    if n + 1 < st.1.length then
      if (st.1.getD n default).pitch ≠ 0 then
        ladderScanGo minD maxD fuel (n + 1)
          (ladderRunState st n (ladderWhile st.1 minD maxD st.1.length n))
      else ladderScanGo minD maxD fuel (n + 1) st
    else st.2

/-- Embedding of the ladder-detection part of `LongSlide.detect` (the loop
that fills `self.long_slide_sec` from the notes reconstructed out of the
quantised melody contour). -/
def ladder_detect (note : List Note) (minD maxD : ℚ) : List (ℚ × ℚ) :=
  ladderScanGo minD maxD note.length 0 (note, [])

/-- The `for n in range(pseudo_note.shape[0])` loop of
`SlowBend.long_CAD_pattern_detection` for one CAD pattern `(onp, offp)`,
walking the note-list suffix.  `rest.length < 3` is `n+3 >= len`, the `break`
that abandons the pattern.  The `m`-loop over `{n+2, n+3}` is unrolled; its
`m-n>=2 and m-n<=3` test holds by construction and is omitted. -/
def cadScan (onp offp : ℚ) : List Note → List Note
  | [] => []
  | nt :: rest =>
    if onp ≥ nt.onset ∧ onp ≤ nt.onset + nt.dur then
      if rest.length < 3 then []
      else
        ((if offp ≥ (rest.getD 1 default).onset ∧
              offp ≤ (rest.getD 1 default).onset + (rest.getD 1 default).dur ∧
              |nt.pitch - (rest.getD 1 default).pitch| ≤ 3 then
            [⟨nt.pitch, nt.onset,
              nt.dur + (rest.getD 0 default).dur + (rest.getD 1 default).dur⟩]
          else []) ++
         (if offp ≥ (rest.getD 2 default).onset ∧
              offp ≤ (rest.getD 2 default).onset + (rest.getD 2 default).dur ∧
              |nt.pitch - (rest.getD 2 default).pitch| ≤ 3 then
            [⟨nt.pitch, nt.onset,
              nt.dur + (rest.getD 0 default).dur + (rest.getD 1 default).dur⟩]
          else [])) ++ cadScan onp offp rest
    else cadScan onp offp rest

/-- Embedding of `SlowBend.long_CAD_pattern_detection`: returns the merged
long-CAD notes (`note_of_long_CAD`) and the residual short patterns
(`short_CAD`, i.e. `np.delete(pseudo_CAD, long_CAD_index)`: the patterns whose
scan produced no merged note). -/
def long_CAD_pattern_detection (note : List Note) (pats : List (ℚ × ℚ)) :
    List Note × List (ℚ × ℚ) :=
  let scans := pats.map (fun pr => cadScan pr.1 pr.2 note)
  (scans.flatten, ((pats.zip scans).filter (fun z => z.2.isEmpty)).map (fun z => z.1))

/-- Maximum of column `f` over a slice of ESN rows (`np.nanmax(..., axis=0)`
on NaN-free data).  The slice is non-empty at every call site (the chain
always deletes at least one note); the `[]` value is arbitrary. -/
def colMax (f : ESNRow → ℚ) : List ESNRow → ℚ
  | [] => 0
  | r :: rs => (rs.map f).foldl max (f r)

/-- Minimum of column `f` over a slice of ESN rows (`np.min`), non-empty at
every call site. -/
def colMin (f : ESNRow → ℚ) : List ESNRow → ℚ
  | [] => 0
  | r :: rs => (rs.map f).foldl min (f r)

/-- The chain-extension `while` loop of `merge_and_update_prebend_bend_release`:
advance `(current_index_candi, current_index_note)` while the next candidate is
bend-labelled and its window straddles the next pair of notes.  The last
comparison uses `expression_style_note[current_index_note,2]` (the *current*
note's duration), exactly as the source does. -/
def chainWhile (esn : List ESNRow) (result : List CRow) : Nat → Nat → Nat → Nat × Nat
  | 0, ci, ni => (ci, ni)
  | fuel + 1, ci, ni =>
    if ni + 1 < esn.length ∧ ci + 1 < result.length ∧
        (result.getD (ci + 1) default).clabel = 0 ∧
        (result.getD (ci + 1) default).cstart > (esn.getD ni default).onset ∧
        (result.getD (ci + 1) default).cstart <
          (esn.getD ni default).onset + (esn.getD ni default).duration ∧
        (result.getD (ci + 1) default).cend > (esn.getD (ni + 1) default).onset ∧
        (result.getD (ci + 1) default).cend <
          (esn.getD (ni + 1) default).onset + (esn.getD ni default).duration then
      chainWhile esn result fuel (ci + 1) (ni + 1)
    else (ci, ni)

/-- The sequence of in-place updates `merge_and_update_prebend_bend_release`
performs on row `i` after a chain ending at note `cur` has been found:
duration extension, column-wise `nanmax` of columns 6.. over the notes to be
deleted, the per-step bend/release assignments, the pre-bend rule and the
minimum-pitch replacement. -/
def mergeStep (esn : List ESNRow) (i cur : Nat) : List ESNRow :=
  let ri := esn.getD i default
  let rcur := esn.getD cur default
  let slice := (esn.drop (i + 1)).take (cur - i)
  let ri1 := { ri with
    duration := rcur.onset + rcur.duration - ri.onset,
    pull := colMax (fun r => r.pull) slice,
    hammer := colMax (fun r => r.hammer) slice,
    slide := colMax (fun r => r.slide) slice,
    slideIn := colMax (fun r => r.slideIn) slice,
    slideOut := colMax (fun r => r.slideOut) slice,
    vibrato := colMax (fun r => r.vibrato) slice }
  let br := (List.range' i (cur - i)).foldl
    (fun (b : ℚ × ℚ) n =>
      let diff := (esn.getD (n + 1) default).pitch - (esn.getD n default).pitch
      if diff > 0 then (diff, b.2) else if diff < 0 then (b.1, |diff|) else b)
    (ri.bend, ri.release)
  let ri2 := { ri1 with bend := br.1, release := br.2 }
  let ri3 := if br.1 = 0 ∧ br.2 ≠ 0 then { ri2 with preBend := br.2 } else ri2
  let ri4 := { ri3 with pitch := colMin (fun r => r.pitch) ((esn.drop i).take (cur - i + 1)) }
  esn.set i ri4

/-- Zero the `start`/`end` columns of candidate rows `a..b`, walking the list
with an index counter. -/
def zeroCandidatesGo (a b : Nat) : Nat → List CRow → List CRow
  | _, [] => []
  | i, r :: rs =>
    (if a ≤ i ∧ i ≤ b then { r with cstart := 0, cend := 0 } else r) ::
      zeroCandidatesGo a b (i + 1) rs

/-- Zero the `start`/`end` columns of candidate rows `a..b`
(`result[index_candi:current_index_candi+1, 0:2] = 0`). -/
def zeroCandidates (result : List CRow) (a b : Nat) : List CRow :=
  zeroCandidatesGo a b 0 result

/-- State update of `merge_and_update_prebend_bend_release` after the chain
`while` loop for the match at note `ni` / candidate `ci` returned `p`:
schedule rows `ni+1..p.2` for deletion, zero the merged candidates' windows
and apply the in-place updates to row `ni`. -/
def mergeApply (ci ni : Nat) (st : List ESNRow × List CRow × List Nat) (p : Nat × Nat) :
    List ESNRow × List CRow × List Nat :=
  (mergeStep st.1 ni p.2, zeroCandidates st.2.1 ci p.1,
   st.2.2 ++ List.range' (ni + 1) (p.2 - ni))

/-- The inner `for index_note, note in enumerate(expression_style_note[:-1])`
loop of `merge_and_update_prebend_bend_release` for candidate index `ci`.
The state is the ESN table, the candidate array and `note_to_be_deleted`. -/
def mergeInner (ci : Nat) :
    Nat → Nat → List ESNRow × List CRow × List Nat → List ESNRow × List CRow × List Nat
  | 0, _, st => st
  | fuel + 1, ni, st =>
    if ni + 1 < st.1.length then
      if (st.2.1.getD ci default).cstart > (st.1.getD ni default).onset ∧
          (st.2.1.getD ci default).cstart <
            (st.1.getD ni default).onset + (st.1.getD ni default).duration ∧
          (st.2.1.getD ci default).cend > (st.1.getD (ni + 1) default).onset ∧
          (st.2.1.getD ci default).cend <
            (st.1.getD (ni + 1) default).onset + (st.1.getD (ni + 1) default).duration then
        mergeInner ci fuel (ni + 1)
          (mergeApply ci ni st (chainWhile st.1 st.2.1 st.1.length ci (ni + 1)))
      else mergeInner ci fuel (ni + 1) st
    else st

/-- The outer `for index_candi, candi_result in enumerate(result)` loop of
`merge_and_update_prebend_bend_release`. -/
def mergeOuter :
    Nat → Nat → List ESNRow × List CRow × List Nat → List ESNRow × List CRow × List Nat
  | 0, _, st => st
  | fuel + 1, ci, st =>
    if ci < st.2.1.length then
      if (st.2.1.getD ci default).clabel = 0 ∧ (st.2.1.getD ci default).cstart ≠ 0 then
        mergeOuter fuel (ci + 1) (mergeInner ci st.1.length 0 st)
      else mergeOuter fuel (ci + 1) st
    else st

/-- Embedding of `merge_and_update_prebend_bend_release`: chain-merge
consecutive notes straddled by bend-labelled candidate windows, keep the
column-wise maximum of columns 6.. of the deleted notes on the surviving
note, accumulate bend/release/pre-bend from the chain's pitch steps, and
delete the merged notes in one batch at the end. -/
def merge_and_update_prebend_bend_release (esn : List ESNRow) (result : List CRow) :
    List ESNRow :=
  let st := mergeOuter result.length 0 (esn, result, [])
  deleteRowsGo st.2.2 0 st.1

/-- Dictionary key for pull-off. -/
def pullKey : String := "pull"

/-- Dictionary key for hammer-on. -/
def hammKey : String := "hamm"

/-- Dictionary key for slide. -/
def slideKey : String := "slide"

/-- Technique-index dictionary: association list from technique name to the
list of classifier label ids (an `int` value in the Python dict is modelled as
a singleton list, mirroring the `type(...) is int` normalisation at the top of
`update_pull_hamm_slide`). -/
def TechDic : Type := List (String × List ℚ)

/-- Label list for one key of the dictionary (`[]` when the key is absent,
matching the `has_key` branches). -/
def dicList (dic : TechDic) (k : String) : List ℚ :=
  (List.lookup k dic).getD []

/-- Reverse lookup `[k for k, v in tech_index_dic.iteritems() if v == candi_result[-1]][0]`:
the first key whose (scalar) value equals the label.  A missing key (an
`IndexError` in Python) is modelled as `none`; it is unreachable whenever the
label belongs to `target_tech_index_list` with scalar-valued entries. -/
def dicRevLookup (dic : TechDic) (label : ℚ) : Option String :=
  (dic.find? (fun kv => kv.2 = [label])).map (fun kv => kv.1)

/-- A concrete technique-index dictionary of the shape the callers pass
(`{'pull': p, 'hamm': h, 'slide': s}` with distinct scalar label ids), used to
instantiate the tagging theorems. -/
def stdDic : TechDic := [(pullKey, [3]), (hammKey, [1]), (slideKey, [4])]

/-- The branch bodies of `update_pull_hamm_slide` for a matched pair
`(ni, ni+1)` once the technique name `t` has been resolved. -/
def uphsStep (esn : List ESNRow) (ni : Nat) (t : Option String) : List ESNRow :=
  if t = some pullKey then
    if (esn.getD ni default).pull = 0 ∧ (esn.getD (ni + 1) default).pull = 0 then
      (esn.set ni { esn.getD ni default with pull := 1 }).set (ni + 1)
        { esn.getD (ni + 1) default with pull := 2 }
    else if (esn.getD ni default).pull ≠ 0 ∧ (esn.getD (ni + 1) default).pull = 0 then
      esn.set (ni + 1) { esn.getD (ni + 1) default with pull := 2 }
    else esn
  else if t = some hammKey then
    if (esn.getD ni default).hammer = 0 ∧ (esn.getD (ni + 1) default).hammer = 0 then
      (esn.set ni { esn.getD ni default with hammer := 1 }).set (ni + 1)
        { esn.getD (ni + 1) default with hammer := 2 }
    else if (esn.getD ni default).hammer ≠ 0 ∧ (esn.getD (ni + 1) default).hammer = 0 then
      esn.set (ni + 1) { esn.getD (ni + 1) default with hammer := 2 }
    else esn
  else if t = some slideKey then
    (esn.set ni { esn.getD ni default with slide := 1 }).set (ni + 1)
      { esn.getD (ni + 1) default with slide := 2 }
  else esn

/-- The inner `for index_note, note in enumerate(expression_style_note[:-1])`
loop of `update_pull_hamm_slide` for candidate `c`. -/
def uphsInner (dic : TechDic) (c : CRow) : Nat → Nat → List ESNRow → List ESNRow
  | 0, _, esn => esn
  | fuel + 1, ni, esn =>
    if ni + 1 < esn.length then
      if c.cstart > (esn.getD ni default).onset ∧
          c.cstart < (esn.getD ni default).onset + (esn.getD ni default).duration ∧
          c.cend > (esn.getD (ni + 1) default).onset ∧
          c.cend < (esn.getD (ni + 1) default).onset + (esn.getD (ni + 1) default).duration then
        uphsInner dic c fuel (ni + 1) (uphsStep esn ni (dicRevLookup dic c.clabel))
      else uphsInner dic c fuel (ni + 1) esn
    else esn

/-- Embedding of `update_pull_hamm_slide`: for every candidate whose label is
one of the pull/hamm/slide label ids and whose window straddles two
consecutive notes, set the start/stop markers in the corresponding technique
column (conditionally for pull and hammer, unconditionally for slide). -/
def update_pull_hamm_slide (esn : List ESNRow) (result : List CRow) (dic : TechDic) :
    List ESNRow :=
  result.foldl
    (fun esn c =>
      if c.clabel ∈ dicList dic pullKey ++ dicList dic hammKey ++ dicList dic slideKey ∧
          c.cstart ≠ 0 then
        uphsInner dic c esn.length 0 esn
      else esn)
    esn

/-- The `while index < len(partitions) and datum >= partitions[index]-halfstep`
loop of `LongSlide.quantize`, returning the final `index`. -/
def quantIndexAux (halfstep datum : ℚ) : List ℚ → Nat → Nat
  | [], i => i
  | p :: ps, i => if datum ≥ p - halfstep then quantIndexAux halfstep datum ps (i + 1) else i

/-- Python list indexing `l[i]` with negative-index wrap-around
(`l[-1]` is the last element); out-of-range access never occurs at the
embedded call site (`-1 ≤ index-1 < len(codebook)`). -/
def pyGet (l : List ℚ) (i : Int) : ℚ :=
  if i < 0 then l.getD (l.length - i.natAbs) 0 else l.getD i.toNat 0

/-- Embedding of `LongSlide.quantize`: quantise each datum against the bin
boundaries `partitions` (half-step-centred comparison), read the value out of
`codebook` at `index-1` (with Python's negative-index wrap-around), then set
negative entries of the result to 0. -/
def quantize (data partitions codebook : List ℚ) : List ℚ :=
  ((data.map (fun datum =>
    pyGet codebook
      ((quantIndexAux ((partitions.getD 1 0 - partitions.getD 0 0) / 2) datum
          partitions 0 : Int) - 1)))).map
    (fun q => if q < 0 then 0 else q)

/-- Default partitions `range(0, 90, 1)` of `LongSlide.quantize`. -/
def defaultPartitions : List ℚ := (List.range 90).map Nat.cast

/-- Default codebook `range(0, 91, 1)` of `LongSlide.quantize`. -/
def defaultCodebook : List ℚ := (List.range 91).map Nat.cast

/-- `LongSlide.quantize` with its default semitone partitions and codebook, as
used on the melody contour in `LongSlide.__init__`. -/
def quantizeDefault (data : List ℚ) : List ℚ :=
  quantize data defaultPartitions defaultCodebook

/-- Specification vocabulary: row `r` agrees with row `r0` on pitch, onset and
every technique column other than `t` (only the duration and column `t` may
differ). -/
def rowPreserves (t : Nat) (r r0 : ESNRow) : Prop :=
  r.pitch = r0.pitch ∧ r.onset = r0.onset ∧ ∀ c, c ≠ t → getCol r c = getCol r0 c

/-! ## Helper lemmas -/

theorem getD_set_self {α : Type} (l : List α) (i : Nat) (x d : α) (h : i < l.length) :
    (l.set i x).getD i d = x := by
  rw [List.getD_eq_getElem?_getD, List.getElem?_set_self h, Option.getD_some]

theorem getD_set_ne {α : Type} (l : List α) {i j : Nat} (x d : α) (h : i ≠ j) :
    (l.set i x).getD j d = l.getD j d := by
  rw [List.getD_eq_getElem?_getD, List.getElem?_set_ne h, ← List.getD_eq_getElem?_getD]

theorem getD_mem {α : Type} (l : List α) (i : Nat) (d : α) (h : i < l.length) :
    l.getD i d ∈ l := by
  rw [List.getD_eq_getElem _ _ h]
  exact List.getElem_mem h

theorem deleteRowsGo_nil {α : Type} (i : Nat) (l : List α) : deleteRowsGo [] i l = l := by
  induction l generalizing i with
  | nil => rfl
  | cons r rs ih => simp [deleteRowsGo, ih]

theorem mem_of_mem_deleteRowsGo {α : Type} {dels : List Nat} {i : Nat} {l : List α} {r : α}
    (h : r ∈ deleteRowsGo dels i l) : r ∈ l := by
  induction l generalizing i with
  | nil => simp [deleteRowsGo] at h
  | cons a rs ih =>
    by_cases hc : dels.contains i
    · simp only [deleteRowsGo, hc, if_pos] at h
      exact List.mem_cons_of_mem _ (ih h)
    · simp only [deleteRowsGo, hc, if_neg, Bool.false_eq_true, not_false_iff,
        List.mem_cons] at h
      rcases h with h | h
      · exact h ▸ List.mem_cons_self _ _
      · exact List.mem_cons_of_mem _ (ih h)

theorem length_deleteRowsGo_le {α : Type} (dels : List Nat) (i : Nat) (l : List α) :
    (deleteRowsGo dels i l).length ≤ l.length := by
  induction l generalizing i with
  | nil => simp [deleteRowsGo]
  | cons a rs ih =>
    by_cases hc : dels.contains i
    · simp only [deleteRowsGo, hc, if_pos]
      exact (ih _).trans (Nat.le_succ _)
    · simp only [deleteRowsGo, hc, if_neg, Bool.false_eq_true, not_false_iff,
        List.length_cons]
      exact Nat.succ_le_succ (ih _)

theorem rowPreserves_refl (t : Nat) (r : ESNRow) : rowPreserves t r r :=
  ⟨rfl, rfl, fun _ _ => rfl⟩

theorem rowPreserves_trans {t : Nat} {r1 r2 r3 : ESNRow}
    (h12 : rowPreserves t r1 r2) (h23 : rowPreserves t r2 r3) : rowPreserves t r1 r3 :=
  ⟨h12.1.trans h23.1, h12.2.1.trans h23.2.1,
    fun c hc => (h12.2.2 c hc).trans (h23.2.2 c hc)⟩

theorem setCol_pitch (r : ESNRow) (t : Nat) (v : ℚ) : (setCol r t v).pitch = r.pitch := by
  unfold setCol; split_ifs <;> rfl

theorem setCol_onset (r : ESNRow) (t : Nat) (v : ℚ) : (setCol r t v).onset = r.onset := by
  unfold setCol; split_ifs <;> rfl

theorem getCol_setCol_ne (tech : Technique) (r : ESNRow) (v : ℚ) {c : Nat}
    (h : c ≠ techIdx tech) :
    getCol (setCol r (techIdx tech) v) c = getCol r c := by
  cases tech with
  | preBend =>
    simp only [techIdx] at h
    show getCol { r with preBend := v } c = getCol r c
    simp only [getCol, h, if_false]
  | bend =>
    simp only [techIdx] at h
    show getCol { r with bend := v } c = getCol r c
    simp only [getCol, h, if_false]
  | release =>
    simp only [techIdx] at h
    show getCol { r with release := v } c = getCol r c
    simp only [getCol, h, if_false]
  | pull =>
    simp only [techIdx] at h
    show getCol { r with pull := v } c = getCol r c
    simp only [getCol, h, if_false]
  | hamm =>
    simp only [techIdx] at h
    show getCol { r with hammer := v } c = getCol r c
    simp only [getCol, h, if_false]
  | slide =>
    simp only [techIdx] at h
    show getCol { r with slide := v } c = getCol r c
    simp only [getCol, h, if_false]
  | slideIn =>
    simp only [techIdx] at h
    show getCol { r with slideIn := v } c = getCol r c
    simp only [getCol, h, if_false]
  | slideOut =>
    simp only [techIdx] at h
    show getCol { r with slideOut := v } c = getCol r c
    simp only [getCol, h, if_false]
  | vibrato =>
    simp only [techIdx] at h
    show getCol { r with vibrato := v } c = getCol r c
    simp only [getCol, h, if_false]

theorem getCol_duration_update (r : ESNRow) (x : ℚ) (c : Nat) :
    getCol { r with duration := x } c = getCol r c := by
  simp only [getCol]

theorem rowPreserves_tag (tech : Technique) (r : ESNRow) (x v : ℚ) :
    rowPreserves (techIdx tech) (setCol { r with duration := x } (techIdx tech) v) r :=
  ⟨setCol_pitch _ _ _, setCol_onset _ _ _,
    fun c hc => (getCol_setCol_ne _ _ _ hc).trans (getCol_duration_update _ _ _)⟩

theorem esnScanFrom_no_match (tIdx : Nat) (sub : ℚ) (d : Note) :
    ∀ (fuel i : Nat) (st : List ESNRow × List Nat),
      (∀ j, i ≤ j → j < st.1.length → d.onset ≠ (st.1.getD j default).onset) →
      esnScanFrom tIdx sub d fuel i st = st := by
  intro fuel
  induction fuel with
  | zero => intro i st h; rfl
  | succ fuel ih =>
    intro i st h
    rw [esnScanFrom]
    by_cases hi : i < st.1.length
    · rw [if_pos hi, if_neg (h i le_rfl hi)]
      exact ih (i + 1) st fun j hj hjl => h j (Nat.le_of_succ_le hj) hjl
    · rw [if_neg hi]

theorem esnWalkAux_char (dOff : ℚ) (esn : List ESNRow) (stop : Nat)
    (hs : stop < esn.length)
    (hstop : (esn.getD stop default).onset + (esn.getD stop default).duration ≥ dOff) :
    ∀ (n j : Nat), j + n = stop →
      (∀ k, j ≤ k → k < stop →
        (esn.getD k default).onset + (esn.getD k default).duration < dOff) →
      esnWalkAux dOff j (esn.drop j) =
        (List.range' j (stop - j) ++
          (if (esn.getD stop default).onset > dOff then [] else [stop]), true) := by
  intro n
  induction n with
  | zero =>
    intro j hj hk
    have hjs : j = stop := by omega
    subst hjs
    have hg : esn.getD j default = esn[j] := List.getD_eq_getElem _ _ hs
    rw [List.drop_eq_getElem_cons hs, esnWalkAux, ← hg, if_pos hstop]
    simp only [Nat.sub_self, List.range'_zero, List.nil_append]
    by_cases hgap : (esn.getD j default).onset > dOff
    · rw [if_pos hgap, if_pos hgap]
    · rw [if_neg hgap, if_neg hgap]
  | succ n ih =>
    intro j hj hk
    have hjs : j < stop := by omega
    have hjl : j < esn.length := lt_trans hjs hs
    have hg : esn.getD j default = esn[j] := List.getD_eq_getElem _ _ hjl
    rw [List.drop_eq_getElem_cons hjl, esnWalkAux, ← hg,
      if_neg (not_le.mpr (hk j le_rfl hjs))]
    show (j :: (esnWalkAux dOff (j + 1) (esn.drop (j + 1))).1,
      (esnWalkAux dOff (j + 1) (esn.drop (j + 1))).2) = _
    rw [ih (j + 1) (by omega) (fun k hk1 hk2 => hk k (by omega) hk2)]
    have hr : stop - j = (stop - (j + 1)) + 1 := by omega
    rw [hr, List.range'_succ]
    rfl

theorem esnScanFrom_skip (tIdx : Nat) (sub : ℚ) (d : Note) :
    ∀ (n i : Nat) (st : List ESNRow × List Nat),
      (∀ j, i ≤ j → j < i + n → d.onset ≠ (st.1.getD j default).onset) →
      i + n ≤ st.1.length →
      esnScanFrom tIdx sub d (st.1.length - i) i st =
        esnScanFrom tIdx sub d (st.1.length - (i + n)) (i + n) st := by
  intro n
  induction n with
  | zero => intro i st h hle; rfl
  | succ n ih =>
    intro i st h hle
    have hi : i < st.1.length := by omega
    have hfuel : st.1.length - i = (st.1.length - (i + 1)) + 1 := by omega
    rw [hfuel, esnScanFrom, if_pos hi, if_neg (h i le_rfl (by omega))]
    have harg : i + 1 + n = i + (n + 1) := by omega
    have := ih (i + 1) st (fun j hj hjl => h j (by omega) (by omega)) (by omega)
    rw [this, harg]

theorem update_esn_single_match (esn : List ESNRow) (d : Note) (tech : Technique)
    (sub : ℚ) (i stop : Nat)
    (hi : i < esn.length)
    (hmatch : d.onset = (esn.getD i default).onset)
    (huniq : ∀ j, j < esn.length → j ≠ i → d.onset ≠ (esn.getD j default).onset)
    (hdur : (esn.getD i default).duration < d.dur)
    (histop : i < stop) (hs : stop < esn.length)
    (hbetween : ∀ k, i < k → k < stop →
      (esn.getD k default).onset + (esn.getD k default).duration < d.onset + d.dur)
    (hstop : (esn.getD stop default).onset + (esn.getD stop default).duration ≥
      d.onset + d.dur) :
    update_esn esn [d] tech sub =
      deleteRowsGo
        (List.range' (i + 1) (stop - (i + 1)) ++
          (if (esn.getD stop default).onset > d.onset + d.dur then [] else [stop])) 0
        (esn.set i
          (setCol { esn.getD i default with duration := d.dur } (techIdx tech) sub)) := by
  have hwalk := esnWalkAux_char (d.onset + d.dur) esn stop hs hstop (stop - (i + 1))
    (i + 1) (by omega) (fun k hk1 hk2 => hbetween k (by omega) hk2)
  have hscan : esnScanFrom (techIdx tech) sub d esn.length 0 (esn, ([] : List Nat)) =
      (esn.set i (setCol { esn.getD i default with duration := d.dur } (techIdx tech) sub),
       List.range' (i + 1) (stop - (i + 1)) ++
         (if (esn.getD stop default).onset > d.onset + d.dur then [] else [stop])) := by
    have hskip := esnScanFrom_skip (techIdx tech) sub d i 0 (esn, ([] : List Nat))
      (fun j hj hjl => huniq j (by simpa using lt_of_lt_of_le (by omega : j < i) hi.le)
        (by omega)) (by simpa using hi.le)
    simp only [Nat.zero_add, Nat.sub_zero] at hskip
    rw [show (esn, ([] : List Nat)).1.length = esn.length from rfl] at hskip
    rw [hskip]
    have hfuel : esn.length - i = (esn.length - (i + 1)) + 1 := by omega
    rw [hfuel, esnScanFrom, if_pos hi, if_pos hmatch, if_neg (not_le.mpr hdur)]
    rw [show ((esn, ([] : List Nat)).1.drop (i + 1)) = esn.drop (i + 1) from rfl, hwalk]
    rw [show esnApplyWalk (techIdx tech) sub d i (esn, ([] : List Nat))
        (List.range' (i + 1) (stop - (i + 1)) ++
          (if (esn.getD stop default).onset > d.onset + d.dur then [] else [stop]), true) =
        (esn.set i
          (setCol { esn.getD i default with duration := d.dur } (techIdx tech) sub),
         List.range' (i + 1) (stop - (i + 1)) ++
           (if (esn.getD stop default).onset > d.onset + d.dur then [] else [stop]))
      from by simp [esnApplyWalk]]
    exact esnScanFrom_no_match (techIdx tech) sub d _ (i + 1) _
      (fun j hj hjl => by
        rw [getD_set_ne esn _ default (by omega : i ≠ j)]
        exact huniq j (by simpa using hjl) (by omega))
  unfold update_esn
  simp only [List.foldl_cons, List.foldl_nil]
  rw [show (esn, ([] : List Nat)).1.length = esn.length from rfl, hscan]

theorem esnApplyWalk_length (tIdx : Nat) (sub : ℚ) (d : Note) (i : Nat)
    (st : List ESNRow × List Nat) (w : List Nat × Bool) :
    (esnApplyWalk tIdx sub d i st w).1.length = st.1.length := by
  by_cases h : w.2 <;> simp [esnApplyWalk, h]

theorem esnScanFrom_length (tIdx : Nat) (sub : ℚ) (d : Note) :
    ∀ (fuel i : Nat) (st : List ESNRow × List Nat),
      (esnScanFrom tIdx sub d fuel i st).1.length = st.1.length := by
  intro fuel
  induction fuel with
  | zero => intro i st; rfl
  | succ fuel ih =>
    intro i st
    rw [esnScanFrom]
    by_cases hi : i < st.1.length
    · rw [if_pos hi]
      by_cases hm : d.onset = (st.1.getD i default).onset
      · rw [if_pos hm]
        by_cases hd : (st.1.getD i default).duration ≥ d.dur
        · rw [if_pos hd, ih]
          simp [List.length_set]
        · rw [if_neg hd, ih, esnApplyWalk_length]
      · rw [if_neg hm, ih]
    · rw [if_neg hi]

theorem esnScanFrom_provenance (tech : Technique) (sub : ℚ) (d : Note) :
    ∀ (fuel i : Nat) (st : List ESNRow × List Nat),
      ∀ r ∈ (esnScanFrom (techIdx tech) sub d fuel i st).1,
        ∃ r0 ∈ st.1, rowPreserves (techIdx tech) r r0 := by
  intro fuel
  induction fuel with
  | zero => intro i st r hr; exact ⟨r, hr, rowPreserves_refl _ _⟩
  | succ fuel ih =>
    intro i st r hr
    rw [esnScanFrom] at hr
    by_cases hi : i < st.1.length
    · rw [if_pos hi] at hr
      by_cases hm : d.onset = (st.1.getD i default).onset
      · rw [if_pos hm] at hr
        by_cases hd : (st.1.getD i default).duration ≥ d.dur
        · rw [if_pos hd] at hr
          obtain ⟨r0, hr0, hp⟩ := ih (i + 1) _ r hr
          rcases List.mem_or_eq_of_mem_set hr0 with h | h
          · exact ⟨r0, h, hp⟩
          · exact ⟨st.1.getD i default, getD_mem _ _ _ hi,
              rowPreserves_trans hp (h ▸ rowPreserves_tag tech _ _ _)⟩
        · rw [if_neg hd] at hr
          obtain ⟨r0, hr0, hp⟩ := ih (i + 1) _ r hr
          by_cases hw : (esnWalkAux (d.onset + d.dur) (i + 1) (st.1.drop (i + 1))).2
          · simp only [esnApplyWalk, hw, if_pos] at hr0
            rcases List.mem_or_eq_of_mem_set hr0 with h | h
            · exact ⟨r0, h, hp⟩
            · exact ⟨st.1.getD i default, getD_mem _ _ _ hi,
                rowPreserves_trans hp (h ▸ rowPreserves_tag tech _ _ _)⟩
          · simp only [esnApplyWalk, hw] at hr0
            simp only [Bool.false_eq_true, if_false] at hr0
            exact ⟨r0, hr0, hp⟩
      · rw [if_neg hm] at hr
        exact ih (i + 1) st r hr
    · rw [if_neg hi] at hr
      exact ⟨r, hr, rowPreserves_refl _ _⟩

theorem esnFold_length (tech : Technique) (sub : ℚ) :
    ∀ (dnotes : List Note) (st : List ESNRow × List Nat),
      (dnotes.foldl
        (fun st d => esnScanFrom (techIdx tech) sub d st.1.length 0 st) st).1.length =
        st.1.length := by
  intro dnotes
  induction dnotes with
  | nil => intro st; rfl
  | cons d ds ih =>
    intro st
    rw [List.foldl_cons, ih, esnScanFrom_length]

theorem esnFold_provenance (tech : Technique) (sub : ℚ) :
    ∀ (dnotes : List Note) (st : List ESNRow × List Nat),
      ∀ r ∈ (dnotes.foldl
          (fun st d => esnScanFrom (techIdx tech) sub d st.1.length 0 st) st).1,
        ∃ r0 ∈ st.1, rowPreserves (techIdx tech) r r0 := by
  intro dnotes
  induction dnotes with
  | nil => intro st r hr; exact ⟨r, hr, rowPreserves_refl _ _⟩
  | cons d ds ih =>
    intro st r hr
    rw [List.foldl_cons] at hr
    obtain ⟨r1, hr1, hp1⟩ := ih _ r hr
    obtain ⟨r0, hr0, hp0⟩ := esnScanFrom_provenance tech sub d _ 0 st r1 hr1
    exact ⟨r0, hr0, rowPreserves_trans hp1 hp0⟩

/-! ## Claim theorems -/

/-- C1: in `Common.update_esn`, when the detected note's onset equals (only)
row `i`'s onset and row `i`'s duration is strictly below the detected
duration, the forward walk stops at the first subsequent row `stop` whose span
end reaches or passes the detected note's end; row `stop` is deleted exactly
when its onset is not strictly beyond the detected end, every row strictly
between `i` and `stop` is deleted, row `i`'s duration becomes the detected
duration with its technique column set to the magnitude, and all deletions are
applied in one batch (`deleteRowsGo`) at the end of the operation. -/
theorem c1_fusion_forward_walk (esn : List ESNRow) (d : Note) (tech : Technique)
    (sub : ℚ) (i stop : Nat)
    (hi : i < esn.length)
    (hmatch : d.onset = (esn.getD i default).onset)
    (huniq : ∀ j, j < esn.length → j ≠ i → d.onset ≠ (esn.getD j default).onset)
    (hdur : (esn.getD i default).duration < d.dur)
    (histop : i < stop) (hs : stop < esn.length)
    (hbetween : ∀ k, i < k → k < stop →
      (esn.getD k default).onset + (esn.getD k default).duration < d.onset + d.dur)
    (hstop : (esn.getD stop default).onset + (esn.getD stop default).duration ≥
      d.onset + d.dur) :
    update_esn esn [d] tech sub =
      deleteRowsGo
        (List.range' (i + 1) (stop - (i + 1)) ++
          (if (esn.getD stop default).onset > d.onset + d.dur then [] else [stop])) 0
        (esn.set i
          (setCol { esn.getD i default with duration := d.dur } (techIdx tech) sub)) :=
  update_esn_single_match esn d tech sub i stop hi hmatch huniq hdur histop hs
    hbetween hstop

/-- C1 (witness): the characterization applied to the concrete table
`[(60,0,1), (62,1,1), (64,2,2)]` and detected note `(60,0,3)`: the walk stops
at row 2 (absorbed, since its onset 2 does not exceed the detected end 3),
row 1 is deleted, and the matched row 0 is shrunk to duration 3 and tagged
`vibrato = 2`. -/
theorem c1_fusion_forward_walk_witness :
    update_esn
        [⟨60, 0, 1, 0, 0, 0, 0, 0, 0, 0, 0, 0⟩, ⟨62, 1, 1, 0, 0, 0, 0, 0, 0, 0, 0, 0⟩,
          ⟨64, 2, 2, 0, 0, 0, 0, 0, 0, 0, 0, 0⟩]
        [⟨60, 0, 3⟩] Technique.vibrato 2 =
      [⟨60, 0, 3, 0, 0, 0, 0, 0, 0, 0, 0, 2⟩] := by
  have h := c1_fusion_forward_walk
    [⟨60, 0, 1, 0, 0, 0, 0, 0, 0, 0, 0, 0⟩, ⟨62, 1, 1, 0, 0, 0, 0, 0, 0, 0, 0, 0⟩,
      ⟨64, 2, 2, 0, 0, 0, 0, 0, 0, 0, 0, 0⟩]
    ⟨60, 0, 3⟩ Technique.vibrato 2 0 2
    (by norm_num)
    (by norm_num)
    (by
      intro j hj hne
      simp only [List.length_cons, List.length_nil] at hj
      interval_cases j
      · omega
      · norm_num
      · norm_num)
    (by norm_num)
    (by norm_num)
    (by norm_num)
    (by
      intro k hk1 hk2
      interval_cases k
      norm_num)
    (by norm_num)
  rw [h]
  norm_num [deleteRowsGo, setCol, techIdx, List.range']

/-- C2 (counterexample): for the ESN rows spanning `[0,1)`, `[1,2)`, `[3,4)`
and the detected note spanning `[0.5, 3.5)`, `update_esn` leaves the table
unchanged — the detected onset 0.5 matches no row onset, so no row is
retagged or shrunk, and in particular no surviving row ends at 3.5 (the
surviving spans still end at 1, 2 and 4), contrary to the claim that the row
covering 0.5 is shrunk to end at 3.5. -/
theorem c2_fusion_gap_counterexample :
    update_esn
        [⟨60, 0, 1, 0, 0, 0, 0, 0, 0, 0, 0, 0⟩, ⟨62, 1, 1, 0, 0, 0, 0, 0, 0, 0, 0, 0⟩,
          ⟨64, 3, 1, 0, 0, 0, 0, 0, 0, 0, 0, 0⟩]
        [⟨60, 1/2, 3⟩] Technique.vibrato 2 =
      [⟨60, 0, 1, 0, 0, 0, 0, 0, 0, 0, 0, 0⟩, ⟨62, 1, 1, 0, 0, 0, 0, 0, 0, 0, 0, 0⟩,
        ⟨64, 3, 1, 0, 0, 0, 0, 0, 0, 0, 0, 0⟩] ∧
    (0 : ℚ) + 1 ≠ 7/2 ∧ (1 : ℚ) + 1 ≠ 7/2 ∧ (3 : ℚ) + 1 ≠ 7/2 := by
  constructor
  · norm_num [update_esn, esnScanFrom, esnWalkAux, esnApplyWalk, deleteRowsGo,
      techIdx, setCol]
  · norm_num

/-- C2 (amended): for the ESN rows spanning `[0,1)`, `[1,2)`, `[3,4)` and the
detected note spanning `[0.5, 3.5)`, the fusion is a no-op — matching is by
onset equality and onset 0.5 equals no row onset — so the table is returned
unchanged; in particular the row spanning `[3,4)` survives untouched (it is
neither deleted nor merged). -/
theorem c2_fusion_gap_amended :
    update_esn
        [⟨60, 0, 1, 0, 0, 0, 0, 0, 0, 0, 0, 0⟩, ⟨62, 1, 1, 0, 0, 0, 0, 0, 0, 0, 0, 0⟩,
          ⟨64, 3, 1, 0, 0, 0, 0, 0, 0, 0, 0, 0⟩]
        [⟨60, 1/2, 3⟩] Technique.vibrato 2 =
      [⟨60, 0, 1, 0, 0, 0, 0, 0, 0, 0, 0, 0⟩, ⟨62, 1, 1, 0, 0, 0, 0, 0, 0, 0, 0, 0⟩,
        ⟨64, 3, 1, 0, 0, 0, 0, 0, 0, 0, 0, 0⟩] ∧
    (update_esn
        [⟨60, 0, 1, 0, 0, 0, 0, 0, 0, 0, 0, 0⟩, ⟨62, 1, 1, 0, 0, 0, 0, 0, 0, 0, 0, 0⟩,
          ⟨64, 3, 1, 0, 0, 0, 0, 0, 0, 0, 0, 0⟩]
        [⟨60, 1/2, 3⟩] Technique.vibrato 2).getD 2 default =
      ⟨64, 3, 1, 0, 0, 0, 0, 0, 0, 0, 0, 0⟩ := by
  have h : update_esn
      [⟨60, 0, 1, 0, 0, 0, 0, 0, 0, 0, 0, 0⟩, ⟨62, 1, 1, 0, 0, 0, 0, 0, 0, 0, 0, 0⟩,
        ⟨64, 3, 1, 0, 0, 0, 0, 0, 0, 0, 0, 0⟩]
      [⟨60, 1/2, 3⟩] Technique.vibrato 2 =
      [⟨60, 0, 1, 0, 0, 0, 0, 0, 0, 0, 0, 0⟩, ⟨62, 1, 1, 0, 0, 0, 0, 0, 0, 0, 0, 0⟩,
        ⟨64, 3, 1, 0, 0, 0, 0, 0, 0, 0, 0, 0⟩] := by
    norm_num [update_esn, esnScanFrom, esnWalkAux, esnApplyWalk, deleteRowsGo,
      techIdx, setCol]
  exact ⟨h, by rw [h]; rfl⟩

/-- C8: a detected note whose onset equals no ESN row's onset is silently
dropped — `update_esn` returns the table unchanged and no error is raised
(the embedding is total). -/
theorem c8_fusion_no_match_noop (esn : List ESNRow) (d : Note) (tech : Technique)
    (sub : ℚ)
    (h : ∀ j, j < esn.length → d.onset ≠ (esn.getD j default).onset) :
    update_esn esn [d] tech sub = esn := by
  unfold update_esn
  simp only [List.foldl_cons, List.foldl_nil]
  rw [esnScanFrom_no_match (techIdx tech) sub d _ 0 (esn, []) (fun j _ hj => h j hj)]
  exact deleteRowsGo_nil 0 esn

/-- C8 (witness): a detected note at onset 5 matches neither of the rows at
onsets 0 and 1, so the two-row table is returned unchanged. -/
theorem c8_fusion_no_match_noop_witness :
    update_esn
        [⟨55, 0, 1, 0, 0, 0, 0, 0, 0, 0, 0, 0⟩, ⟨57, 1, 2, 0, 0, 0, 0, 0, 0, 0, 0, 0⟩]
        [⟨55, 5, 1⟩] Technique.bend 3 =
      [⟨55, 0, 1, 0, 0, 0, 0, 0, 0, 0, 0, 0⟩, ⟨57, 1, 2, 0, 0, 0, 0, 0, 0, 0, 0, 0⟩] :=
  c8_fusion_no_match_noop _ _ _ _ (by
    intro j hj
    simp only [List.length_cons, List.length_nil] at hj
    interval_cases j
    · norm_num
    · norm_num)

/-- C10: `update_esn` never modifies the pitch or onset of a surviving row and
never adds a row: the output has at most as many rows as the input, and every
output row agrees with some input row on pitch, onset and every technique
column other than the one selected by the given technique (only the duration
and that single column may change). -/
theorem c10_fusion_frame (esn : List ESNRow) (dnotes : List Note) (tech : Technique)
    (sub : ℚ) :
    (update_esn esn dnotes tech sub).length ≤ esn.length ∧
    ∀ r ∈ update_esn esn dnotes tech sub, ∃ r0 ∈ esn,
      rowPreserves (techIdx tech) r r0 := by
  constructor
  · unfold update_esn
    exact (length_deleteRowsGo_le _ _ _).trans
      (le_of_eq (esnFold_length tech sub dnotes (esn, [])))
  · intro r hr
    unfold update_esn at hr
    exact esnFold_provenance tech sub dnotes (esn, []) r (mem_of_mem_deleteRowsGo hr)

/-- C10 (witness): the frame property instantiated on a concrete two-row table
with a matching detection that shrinks row 0: the output has at most two
rows. -/
theorem c10_fusion_frame_witness :
    (update_esn
        [⟨60, 0, 2, 0, 0, 0, 0, 0, 0, 0, 0, 0⟩, ⟨62, 2, 1, 0, 0, 0, 0, 0, 0, 0, 0, 0⟩]
        [⟨60, 0, 1⟩] Technique.slideOut 1).length ≤ 2 :=
  (c10_fusion_frame
    [⟨60, 0, 2, 0, 0, 0, 0, 0, 0, 0, 0, 0⟩, ⟨62, 2, 1, 0, 0, 0, 0, 0, 0, 0, 0, 0⟩]
    [⟨60, 0, 1⟩] Technique.slideOut 1).1

theorem defaultPartitions_getD (k : Nat) (h : k < 90) :
    defaultPartitions.getD k 0 = (k : ℚ) := by
  rw [defaultPartitions, List.getD_eq_getElem?_getD, List.getElem?_map,
    List.getElem?_range h]
  rfl

theorem defaultCodebook_getD (k : Nat) (h : k < 91) :
    defaultCodebook.getD k 0 = (k : ℚ) := by
  rw [defaultCodebook, List.getD_eq_getElem?_getD, List.getElem?_map,
    List.getElem?_range h]
  rfl

theorem defaultPartitions_cons :
    defaultPartitions = (0 : ℚ) :: (List.range' 1 89).map Nat.cast := by
  rw [defaultPartitions, List.range_eq_range']
  rw [show (90 : ℕ) = 89 + 1 from rfl, List.range'_succ]
  simp

theorem defaultCodebook_length : defaultCodebook.length = 91 := by
  rw [defaultCodebook]
  simp

/-- C9: evaluation of `LongSlide.quantize` (default partitions/codebook) at
the failing input `[-1.0]`, a sample below the lowest half-step-centred
boundary: the loop index stays 0, `codebook[index-1]` is `codebook[-1]`,
which Python wraps around to the *last* entry 90, and since 90 is
non-negative the final clip never fires — the code returns 90 where the claim
(and the evident intent of the `quantised_data[quantised_data<0] = 0` line)
requires 0. -/
theorem c9_quantize_below_boundary :
    quantizeDefault [(-1 : ℚ)] = [(90 : ℚ)] ∧ (90 : ℚ) ≠ 0 := by
  constructor
  · rw [quantizeDefault, quantize]
    have hhalf : (defaultPartitions.getD 1 0 - defaultPartitions.getD 0 0) / 2 =
        1 / 2 := by
      rw [defaultPartitions_getD 1 (by norm_num), defaultPartitions_getD 0 (by norm_num)]
      norm_num
    simp only [hhalf, List.map_cons, List.map_nil]
    have hidx : quantIndexAux (1 / 2) (-1) defaultPartitions 0 = 0 := by
      rw [defaultPartitions_cons, quantIndexAux, if_neg (by norm_num)]
    rw [hidx]
    have hg : defaultCodebook.getD 90 0 = (90 : ℚ) := defaultCodebook_getD 90 (by norm_num)
    rw [List.getD_eq_getElem _ _ (by rw [defaultCodebook_length]; norm_num)] at hg
    norm_num [pyGet, defaultCodebook_length, hg]
  · norm_num

theorem qsign_pos {e : ℚ} (he : 0 < e) : qsign e = 1 := by
  rw [qsign, if_neg (not_lt.mpr he.le), if_neg he.ne']

theorem qsign_neg {e : ℚ} (he : 0 < e) : qsign (-e) = -1 := by
  rw [qsign, if_pos (neg_lt_zero.mpr he)]

/-- C3 (counterexample): a serrated run of exactly five alternating
one-semitone notes with zero gaps, given as the whole input, is *not*
collapsed by `identify_serrated_pattern`: the extension loop's
`offset_note+1 < len-1` bound cannot absorb the final note, the traced run
stops at four notes, and the five notes are passed through unmerged with no
wild-vibrato detection — contradicting the claim that every such 5-note run
is merged and registered. -/
theorem c3_serrated_counterexample :
    identify_serrated_pattern
        [⟨60, 0, 1⟩, ⟨61, 1, 1⟩, ⟨60, 2, 1⟩, ⟨61, 3, 1⟩, ⟨60, 4, 1⟩] 1 =
      ([⟨60, 0, 1⟩, ⟨61, 1, 1⟩, ⟨60, 2, 1⟩, ⟨61, 3, 1⟩, ⟨60, 4, 1⟩], []) ∧
    (identify_serrated_pattern
        [⟨60, 0, 1⟩, ⟨61, 1, 1⟩, ⟨60, 2, 1⟩, ⟨61, 3, 1⟩, ⟨60, 4, 1⟩] 1).1.length ≠ 1 := by
  have h1 : (61 : ℚ) - 60 = 1 := by norm_num
  have h2 : (60 : ℚ) - 61 = -1 := by norm_num
  have h3 : (0 : ℚ) < 1/100 := by norm_num
  have h4 : |(-1 : ℚ)| = 1 := by norm_num
  have h5 : |(1 : ℚ)| = 1 := by norm_num
  have h6 : ¬(60 : ℚ) = 0 := by norm_num
  have h8 : qsign (1 : ℚ) = 1 := qsign_pos (by norm_num)
  have h9 : qsign (-1 : ℚ) = -1 := by
    rw [show (-1 : ℚ) = -(1 : ℚ) from rfl]; exact qsign_neg (by norm_num)
  have h10 : ¬((-1 : ℚ) = 1) := by norm_num
  have h11 : ¬((1 : ℚ) = -1) := by norm_num
  constructor
  · simp [identify_serrated_pattern, serratedScan, serratedWhile, serratedRunState,
      zeroPitches, zeroPitchesGo, h1, h2, h3, h4, h5, h6, h8, h9, h10, h11,
      show ((1 : ℚ) - (0 + 1)) = 0 by norm_num, show ((2 : ℚ) - (1 + 1)) = 0 by norm_num,
      show ((3 : ℚ) - (2 + 1)) = 0 by norm_num, show ((4 : ℚ) - (3 + 1)) = 0 by norm_num]
  · simp [identify_serrated_pattern, serratedScan, serratedWhile, serratedRunState,
      zeroPitches, zeroPitchesGo, h1, h2, h3, h4, h5, h6, h8, h9, h10, h11,
      show ((1 : ℚ) - (0 + 1)) = 0 by norm_num, show ((2 : ℚ) - (1 + 1)) = 0 by norm_num,
      show ((3 : ℚ) - (2 + 1)) = 0 by norm_num, show ((4 : ℚ) - (3 + 1)) = 0 by norm_num]

/-- C3 (amended): with a given extent `e > 0`, a serrated run of exactly five
notes (steps alternating starting with `+e`, gaps below 0.01 s) that is
followed by at least one further note — the extension loop cannot absorb the
array's last note, so the run must end strictly before it — is collapsed into
one merged note (pitch and onset of the first note, duration last offset
minus first onset) and registered as a wild-vibrato detection, while the
trailing notes are copied through; a run of exactly four such notes is not
merged: its notes are copied through individually with no vibrato
registration. -/
theorem c3_serrated_threshold_amended :
    (∀ p e q r o0 d0 o1 d1 o2 d2 o3 d3 o4 d4 o5 d5 o6 d6 : ℚ,
      p ≠ 0 → q ≠ 0 → r ≠ 0 → 0 < e →
      o1 - (o0 + d0) < 1/100 → o2 - (o1 + d1) < 1/100 →
      o3 - (o2 + d2) < 1/100 → o4 - (o3 + d3) < 1/100 →
      ¬(o5 - (o4 + d4) < 1/100) → ¬(r - q = e) →
      identify_serrated_pattern
          [⟨p, o0, d0⟩, ⟨p + e, o1, d1⟩, ⟨p, o2, d2⟩, ⟨p + e, o3, d3⟩, ⟨p, o4, d4⟩,
           ⟨q, o5, d5⟩, ⟨r, o6, d6⟩] e =
        ([⟨p, o0, o4 + d4 - o0⟩, ⟨q, o5, d5⟩, ⟨r, o6, d6⟩],
         [⟨p, o0, o4 + d4 - o0⟩])) ∧
    (∀ p e q r o0 d0 o1 d1 o2 d2 o3 d3 o4 d4 o5 d5 : ℚ,
      p ≠ 0 → q ≠ 0 → r ≠ 0 → 0 < e →
      o1 - (o0 + d0) < 1/100 → o2 - (o1 + d1) < 1/100 → o3 - (o2 + d2) < 1/100 →
      ¬(o4 - (o3 + d3) < 1/100) → ¬(r - q = e) →
      identify_serrated_pattern
          [⟨p, o0, d0⟩, ⟨p + e, o1, d1⟩, ⟨p, o2, d2⟩, ⟨p + e, o3, d3⟩,
           ⟨q, o4, d4⟩, ⟨r, o5, d5⟩] e =
        ([⟨p, o0, d0⟩, ⟨p + e, o1, d1⟩, ⟨p, o2, d2⟩, ⟨p + e, o3, d3⟩,
          ⟨q, o4, d4⟩, ⟨r, o5, d5⟩], [])) := by
  constructor
  · intro p e q r o0 d0 o1 d1 o2 d2 o3 d3 o4 d4 o5 d5 o6 d6
    intro hp hq hr he g1 g2 g3 g4 hb hb2
    have hd1 : p + e - p = e := by ring
    have hd2 : p - (p + e) = -e := by ring
    have habs : |e| = e := abs_of_pos he
    have habs2 : |(-e)| = e := by rw [abs_neg]; exact habs
    have hq1 : qsign e = 1 := qsign_pos he
    have hq2 : qsign (-e) = -1 := qsign_neg he
    have hne1 : ¬((1 : ℚ) = -1) := by norm_num
    have hne2 : ¬((-1 : ℚ) = 1) := by norm_num
    simp only [one_div] at g1 g2 g3 g4 hb
    simp [identify_serrated_pattern, serratedScan, serratedWhile, serratedRunState,
      zeroPitches, zeroPitchesGo, hd1, hd2, habs, habs2, hq1, hq2, hne1, hne2,
      hp, hq, hr, g1, g2, g3, g4, hb, hb2]
  · intro p e q r o0 d0 o1 d1 o2 d2 o3 d3 o4 d4 o5 d5
    intro hp hq hr he g1 g2 g3 hb hb2
    have hd1 : p + e - p = e := by ring
    have hd2 : p - (p + e) = -e := by ring
    have habs : |e| = e := abs_of_pos he
    have habs2 : |(-e)| = e := by rw [abs_neg]; exact habs
    have hq1 : qsign e = 1 := qsign_pos he
    have hq2 : qsign (-e) = -1 := qsign_neg he
    have hne1 : ¬((1 : ℚ) = -1) := by norm_num
    have hne2 : ¬((-1 : ℚ) = 1) := by norm_num
    simp only [one_div] at g1 g2 g3 hb
    simp [identify_serrated_pattern, serratedScan, serratedWhile, serratedRunState,
      zeroPitches, zeroPitchesGo, hd1, hd2, habs, habs2, hq1, hq2, hne1, hne2,
      hp, hq, hr, g1, g2, g3, hb, hb2]

/-- C3 (witness): the amended serration threshold at a concrete instance —
an interior five-note run `[60,61,60,61,60]` with unit gaps followed by
breaker notes is merged into `(60, 0, 5)` and registered as wild vibrato,
while the analogous four-note run `[60,61,60,61]` is copied through
unmerged. -/
theorem c3_serrated_threshold_amended_witness :
    identify_serrated_pattern
        [⟨60, 0, 1⟩, ⟨61, 1, 1⟩, ⟨60, 2, 1⟩, ⟨61, 3, 1⟩, ⟨60, 4, 1⟩,
         ⟨70, 10, 1⟩, ⟨80, 11, 1⟩] 1 =
      ([⟨60, 0, 5⟩, ⟨70, 10, 1⟩, ⟨80, 11, 1⟩], [⟨60, 0, 5⟩]) ∧
    identify_serrated_pattern
        [⟨60, 0, 1⟩, ⟨61, 1, 1⟩, ⟨60, 2, 1⟩, ⟨61, 3, 1⟩, ⟨70, 10, 1⟩,
         ⟨80, 11, 1⟩] 1 =
      ([⟨60, 0, 1⟩, ⟨61, 1, 1⟩, ⟨60, 2, 1⟩, ⟨61, 3, 1⟩, ⟨70, 10, 1⟩,
        ⟨80, 11, 1⟩], []) := by
  constructor
  · have h := c3_serrated_threshold_amended.1 60 1 70 80 0 1 1 1 2 1 3 1 4 1 10 1 11 1
      (by norm_num) (by norm_num) (by norm_num) (by norm_num) (by norm_num)
      (by norm_num) (by norm_num) (by norm_num) (by norm_num) (by norm_num)
    norm_num at h
    exact h
  · have h := c3_serrated_threshold_amended.2 60 1 70 80 0 1 1 1 2 1 3 1 10 1 11 1
      (by norm_num) (by norm_num) (by norm_num) (by norm_num) (by norm_num)
      (by norm_num) (by norm_num) (by norm_num) (by norm_num)
    norm_num at h
    exact h

/-- C4 (counterexample): a five-note downward ladder (transition durations
inside the default `[0.015, 0.09]` window) given as the whole reconstructed
note list registers *nothing*: the trace loop's `offset_note+2 < len` bound
cannot absorb the final note, so the ladder is cut at four steps and no
slide-out segment is produced — contradicting the claim that every ladder
spanning at least five notes registers its interval. -/
theorem c4_ladder_counterexample :
    ladder_detect
        [⟨10, 0, 1/20⟩, ⟨9, 1/20, 1/20⟩, ⟨8, 1/10, 1/20⟩, ⟨7, 3/20, 1/20⟩,
         ⟨6, 1/5, 1/20⟩] (3/200) (9/100) = [] := by
  norm_num [ladder_detect, ladderScanGo, ladderWhile, ladderRunState,
    zeroPitches, zeroPitchesGo]

/-- C4 (amended): a downward ladder of exactly five notes (each successor one
step lower, transition durations within `[minD, maxD]`) that is broken by a
further note and does not reach the end of the array registers the interval
from the first note's onset to the fifth note's offset as a slide-out
segment; a ladder of exactly four such notes registers nothing.  (The scan
cannot extend a ladder into the array's final note, so a qualifying ladder
must end strictly before it.) -/
theorem c4_ladder_threshold_amended :
    (∀ minD maxD p q r o0 d0 o1 d1 o2 d2 o3 d3 o4 d4 o5 d5 o6 d6 : ℚ,
      p ≠ 0 → q ≠ 0 →
      minD ≤ d1 → d1 ≤ maxD → minD ≤ d2 → d2 ≤ maxD →
      minD ≤ d3 → d3 ≤ maxD → minD ≤ d4 → d4 ≤ maxD →
      ¬(q + 1 = p - 4) → ¬(r + 1 = q) →
      ladder_detect
          [⟨p, o0, d0⟩, ⟨p - 1, o1, d1⟩, ⟨p - 2, o2, d2⟩, ⟨p - 3, o3, d3⟩,
           ⟨p - 4, o4, d4⟩, ⟨q, o5, d5⟩, ⟨r, o6, d6⟩] minD maxD =
        [(o0, o4 + d4)]) ∧
    (∀ minD maxD p q r o0 d0 o1 d1 o2 d2 o3 d3 o4 d4 o5 d5 : ℚ,
      p ≠ 0 → q ≠ 0 →
      minD ≤ d1 → d1 ≤ maxD → minD ≤ d2 → d2 ≤ maxD → minD ≤ d3 → d3 ≤ maxD →
      ¬(q + 1 = p - 3) →
      ladder_detect
          [⟨p, o0, d0⟩, ⟨p - 1, o1, d1⟩, ⟨p - 2, o2, d2⟩, ⟨p - 3, o3, d3⟩,
           ⟨q, o4, d4⟩, ⟨r, o5, d5⟩] minD maxD = []) := by
  constructor
  · intro minD maxD p q r o0 d0 o1 d1 o2 d2 o3 d3 o4 d4 o5 d5 o6 d6
    intro hp hq w1 w1' w2 w2' w3 w3' w4 w4' hb hb2
    have hs1 : p - 1 + 1 = p := by ring
    have hs2 : p - 2 + 1 = p - 1 := by ring
    have hs3 : p - 3 + 1 = p - 2 := by ring
    have hs4 : p - 4 + 1 = p - 3 := by ring
    simp [ladder_detect, ladderScanGo, ladderWhile, ladderRunState, zeroPitches,
      zeroPitchesGo, hs1, hs2, hs3, hs4, hp, hq, w1, w1', w2, w2', w3, w3', w4, w4',
      hb, hb2]
  · intro minD maxD p q r o0 d0 o1 d1 o2 d2 o3 d3 o4 d4 o5 d5
    intro hp hq w1 w1' w2 w2' w3 w3' hb
    have hs1 : p - 1 + 1 = p := by ring
    have hs2 : p - 2 + 1 = p - 1 := by ring
    have hs3 : p - 3 + 1 = p - 2 := by ring
    simp [ladder_detect, ladderScanGo, ladderWhile, ladderRunState, zeroPitches,
      zeroPitchesGo, hs1, hs2, hs3, hp, hq, w1, w1', w2, w2', w3, w3', hb]

/-- C4 (witness): the amended ladder threshold at a concrete instance — the
five-step ladder `10,9,8,7,6` (transition durations 0.05 within the default
window) followed by breaker notes registers `(0, 0.25)`, while the four-step
ladder `10,9,8,7` followed by breaker notes registers nothing. -/
theorem c4_ladder_threshold_amended_witness :
    ladder_detect
        [⟨10, 0, 1/20⟩, ⟨9, 1/20, 1/20⟩, ⟨8, 1/10, 1/20⟩, ⟨7, 3/20, 1/20⟩,
         ⟨6, 1/5, 1/20⟩, ⟨20, 1/4, 1/20⟩, ⟨30, 3/10, 1/20⟩] (3/200) (9/100) =
      [(0, 1/4)] ∧
    ladder_detect
        [⟨10, 0, 1/20⟩, ⟨9, 1/20, 1/20⟩, ⟨8, 1/10, 1/20⟩, ⟨7, 3/20, 1/20⟩,
         ⟨20, 1/5, 1/20⟩, ⟨30, 1/4, 1/20⟩] (3/200) (9/100) = [] := by
  constructor
  · have h := c4_ladder_threshold_amended.1 (3/200) (9/100) 10 20 30 0 (1/20) (1/20)
      (1/20) (1/10) (1/20) (3/20) (1/20) (1/5) (1/20) (1/4) (1/20) (3/10) (1/20)
      (by norm_num) (by norm_num) (by norm_num) (by norm_num) (by norm_num)
      (by norm_num) (by norm_num) (by norm_num) (by norm_num) (by norm_num)
      (by norm_num) (by norm_num)
    norm_num at h
    exact h
  · have h := c4_ladder_threshold_amended.2 (3/200) (9/100) 10 20 30 0 (1/20) (1/20)
      (1/20) (1/10) (1/20) (3/20) (1/20) (1/5) (1/20) (1/4) (1/20)
      (by norm_num) (by norm_num) (by norm_num) (by norm_num) (by norm_num)
      (by norm_num) (by norm_num) (by norm_num) (by norm_num)
    norm_num at h
    exact h

/-- C5 (counterexample): a three-note ascending run given as the whole note
table, fully covered by a CAD interval (start inside note 0, end inside
note 2), produces *no* merged bend note: the scan executes
`if n+3 >= len: break` and abandons the pattern, because fewer than three
notes follow the matched note — contradicting the claim that such a run
produces exactly one merged note. -/
theorem c5_cad_counterexample :
    long_CAD_pattern_detection [⟨60, 0, 1⟩, ⟨61, 1, 1⟩, ⟨62, 2, 1⟩]
      [(1/2, 5/2)] = ([], [(1/2, 5/2)]) := by
  norm_num [long_CAD_pattern_detection, cadScan]

/-- C5 (amended): a three-note run ascending by exactly one semitone per
step, fully covered by a CAD interval (start inside the first note's span
only, end inside the third note's span and not reaching into the fourth),
produces exactly one merged bend note — duration the sum of the three notes'
durations, pitch the first note's pitch — *provided at least one further note
follows the run* (the scan breaks when fewer than three notes follow the
matched note); a run whose interval end lies in the note four index positions
after the start produces no merged note. -/
theorem c5_cad_chain_amended :
    (∀ p pq s t o0 d0 o1 d1 o2 d2 o3 d3 : ℚ,
      o0 ≤ s → s ≤ o0 + d0 → ¬(o1 ≤ s) → ¬(o2 ≤ s) → ¬(o3 ≤ s) →
      o2 ≤ t → t ≤ o2 + d2 → ¬(o3 ≤ t) →
      long_CAD_pattern_detection
          [⟨p, o0, d0⟩, ⟨p + 1, o1, d1⟩, ⟨p + 2, o2, d2⟩, ⟨pq, o3, d3⟩]
          [(s, t)] =
        ([⟨p, o0, d0 + d1 + d2⟩], [])) ∧
    (∀ p p1 p2 p3 p4 s t o0 d0 o1 d1 o2 d2 o3 d3 o4 d4 : ℚ,
      o0 ≤ s → s ≤ o0 + d0 → ¬(o1 ≤ s) → ¬(o2 ≤ s) → ¬(o3 ≤ s) → ¬(o4 ≤ s) →
      o4 ≤ t → t ≤ o4 + d4 → ¬(t ≤ o2 + d2) → ¬(t ≤ o3 + d3) →
      long_CAD_pattern_detection
          [⟨p, o0, d0⟩, ⟨p1, o1, d1⟩, ⟨p2, o2, d2⟩, ⟨p3, o3, d3⟩, ⟨p4, o4, d4⟩]
          [(s, t)] =
        ([], [(s, t)])) := by
  constructor
  · intro p pq s t o0 d0 o1 d1 o2 d2 o3 d3
    intro hs0 hs0' hs1 hs2 hs3 ht2 ht2' ht3
    have habs : |p - (p + 2)| ≤ 3 := by
      rw [show p - (p + 2) = -2 by ring]
      norm_num
    simp [long_CAD_pattern_detection, cadScan, hs0, hs0', hs1, hs2, hs3,
      ht2, ht2', ht3, habs]
    all_goals norm_num
  · intro p p1 p2 p3 p4 s t o0 d0 o1 d1 o2 d2 o3 d3 o4 d4
    intro hs0 hs0' hs1 hs2 hs3 hs4 ht4 ht4' ht2 ht3
    simp [long_CAD_pattern_detection, cadScan, hs0, hs0', hs1, hs2, hs3, hs4,
      ht4, ht4', ht2, ht3]

/-- C5 (witness): the amended CAD chain bounds at a concrete instance — the
run `60,61,62` covered by the interval `(0.5, 2.5)` with a trailing fourth
note merges into `(60, 0, 3)`, while the five-note table with interval
`(0.5, 4.5)` (end in the fifth note) merges nothing and returns the pattern
as a short CAD pattern. -/
theorem c5_cad_chain_amended_witness :
    long_CAD_pattern_detection [⟨60, 0, 1⟩, ⟨61, 1, 1⟩, ⟨62, 2, 1⟩, ⟨70, 10, 1⟩]
        [(1/2, 5/2)] = ([⟨60, 0, 3⟩], []) ∧
    long_CAD_pattern_detection
        [⟨60, 0, 1⟩, ⟨61, 1, 1⟩, ⟨62, 2, 1⟩, ⟨63, 3, 1⟩, ⟨64, 4, 1⟩]
        [(1/2, 9/2)] = ([], [(1/2, 9/2)]) := by
  constructor
  · have h := c5_cad_chain_amended.1 60 70 (1/2) (5/2) 0 1 1 1 2 1 10 1
      (by norm_num) (by norm_num) (by norm_num) (by norm_num) (by norm_num)
      (by norm_num) (by norm_num) (by norm_num)
    norm_num at h
    exact h
  · have h := c5_cad_chain_amended.2 60 61 62 63 64 (1/2) (9/2) 0 1 1 1 2 1 3 1 4 1
      (by norm_num) (by norm_num) (by norm_num) (by norm_num) (by norm_num)
      (by norm_num) (by norm_num) (by norm_num) (by norm_num) (by norm_num)
    exact h

theorem ite_pull (c : Prop) [Decidable c] (a b : ESNRow) :
    (if c then a else b).pull = if c then a.pull else b.pull := by split <;> rfl

theorem ite_hammer (c : Prop) [Decidable c] (a b : ESNRow) :
    (if c then a else b).hammer = if c then a.hammer else b.hammer := by split <;> rfl

theorem ite_slide (c : Prop) [Decidable c] (a b : ESNRow) :
    (if c then a else b).slide = if c then a.slide else b.slide := by split <;> rfl

theorem ite_slideIn (c : Prop) [Decidable c] (a b : ESNRow) :
    (if c then a else b).slideIn = if c then a.slideIn else b.slideIn := by split <;> rfl

theorem ite_slideOut (c : Prop) [Decidable c] (a b : ESNRow) :
    (if c then a else b).slideOut = if c then a.slideOut else b.slideOut := by
  split <;> rfl

theorem ite_vibrato (c : Prop) [Decidable c] (a b : ESNRow) :
    (if c then a else b).vibrato = if c then a.vibrato else b.vibrato := by split <;> rfl

theorem ite_onset (c : Prop) [Decidable c] (a b : ESNRow) :
    (if c then a else b).onset = if c then a.onset else b.onset := by split <;> rfl

theorem ite_duration (c : Prop) [Decidable c] (a b : ESNRow) :
    (if c then a else b).duration = if c then a.duration else b.duration := by
  split <;> rfl

/-- C6 (counterexample): merging the notes `(60,0,1)` (all technique columns
zero) and `(60,1,1)` with `bend = 3` and `vibrato = 1` under a bend-labelled
candidate `(0.5, 1.5, 0)`: the surviving note's `bend` column is 0, *not* the
column-wise maximum 3 over the deleted note — the `nanmax` in the source only
covers columns 6.. (pull through vibrato), and the bend/release/pre-bend
columns are instead recomputed from the chain's pitch steps (here the pitch
step is 0, so `bend` stays 0). -/
theorem c6_merge_max_counterexample :
    merge_and_update_prebend_bend_release
        [⟨60, 0, 1, 0, 0, 0, 0, 0, 0, 0, 0, 0⟩, ⟨60, 1, 1, 0, 3, 0, 0, 0, 0, 0, 0, 1⟩]
        [⟨1/2, 3/2, 0⟩] =
      [⟨60, 0, 2, 0, 0, 0, 0, 0, 0, 0, 0, 1⟩] ∧
    ((merge_and_update_prebend_bend_release
        [⟨60, 0, 1, 0, 0, 0, 0, 0, 0, 0, 0, 0⟩, ⟨60, 1, 1, 0, 3, 0, 0, 0, 0, 0, 0, 1⟩]
        [⟨1/2, 3/2, 0⟩]).getD 0 default).bend ≠
      (([⟨60, 0, 1, 0, 0, 0, 0, 0, 0, 0, 0, 0⟩,
         ⟨60, 1, 1, 0, 3, 0, 0, 0, 0, 0, 0, 1⟩] : List ESNRow).getD 1 default).bend := by
  have h : merge_and_update_prebend_bend_release
      [⟨60, 0, 1, 0, 0, 0, 0, 0, 0, 0, 0, 0⟩, ⟨60, 1, 1, 0, 3, 0, 0, 0, 0, 0, 0, 1⟩]
      [⟨1/2, 3/2, 0⟩] =
      [⟨60, 0, 2, 0, 0, 0, 0, 0, 0, 0, 0, 1⟩] := by
    norm_num [merge_and_update_prebend_bend_release, mergeOuter, mergeInner, chainWhile,
      mergeApply, mergeStep, colMax, colMin, zeroCandidates, zeroCandidatesGo,
      deleteRowsGo, List.range']
  refine ⟨h, ?_⟩
  rw [h]
  norm_num

/-- C6 (amended): when the bend-chain rule merges two consecutive notes
(candidate labelled bend, window straddling the pair), the surviving note's
columns 6 through 11 — pull, hammer, slide, slide-in, slide-out and vibrato —
become the column-wise maximum over the deleted notes' columns, here the
deleted second note's values; in particular a non-zero vibrato tag on the
second note is retained on the merged note.  (The pre-bend/bend/release
columns are not maximised; they are recomputed from the chain's pitch
steps.) -/
theorem c6_merge_max_amended (r0 r1 : ESNRow) (c : CRow)
    (hlab : c.clabel = 0) (hst : ¬(c.cstart = 0))
    (h1 : r0.onset < c.cstart) (h2 : c.cstart < r0.onset + r0.duration)
    (h3 : r1.onset < c.cend) (h4 : c.cend < r1.onset + r1.duration) :
    (merge_and_update_prebend_bend_release [r0, r1] [c]).length = 1 ∧
    ((merge_and_update_prebend_bend_release [r0, r1] [c]).getD 0 default).onset =
      r0.onset ∧
    ((merge_and_update_prebend_bend_release [r0, r1] [c]).getD 0 default).duration =
      r1.onset + r1.duration - r0.onset ∧
    ((merge_and_update_prebend_bend_release [r0, r1] [c]).getD 0 default).pull =
      r1.pull ∧
    ((merge_and_update_prebend_bend_release [r0, r1] [c]).getD 0 default).hammer =
      r1.hammer ∧
    ((merge_and_update_prebend_bend_release [r0, r1] [c]).getD 0 default).slide =
      r1.slide ∧
    ((merge_and_update_prebend_bend_release [r0, r1] [c]).getD 0 default).slideIn =
      r1.slideIn ∧
    ((merge_and_update_prebend_bend_release [r0, r1] [c]).getD 0 default).slideOut =
      r1.slideOut ∧
    ((merge_and_update_prebend_bend_release [r0, r1] [c]).getD 0 default).vibrato =
      r1.vibrato ∧
    (r1.vibrato ≠ 0 →
      ((merge_and_update_prebend_bend_release [r0, r1] [c]).getD 0 default).vibrato ≠
        0) := by
  simp [merge_and_update_prebend_bend_release, mergeOuter, mergeInner, chainWhile,
    mergeApply, mergeStep, colMax, colMin, zeroCandidates, zeroCandidatesGo,
    deleteRowsGo, List.range', hlab, hst, h1, h2, h3, h4,
    ite_pull, ite_hammer, ite_slide, ite_slideIn, ite_slideOut, ite_vibrato,
    ite_onset, ite_duration]

/-- C6 (witness): the amended chain-merge preservation at a concrete
instance — merging `(62,0,1)` with `(60,1,1)` carrying `vibrato = 2` under the
bend candidate `(0.5, 1.5, 0)` keeps `vibrato = 2` on the surviving note. -/
theorem c6_merge_max_amended_witness :
    ((merge_and_update_prebend_bend_release
        [⟨62, 0, 1, 0, 0, 0, 0, 0, 0, 0, 0, 0⟩, ⟨60, 1, 1, 0, 0, 0, 0, 0, 0, 0, 0, 2⟩]
        [⟨1/2, 3/2, 0⟩]).getD 0 default).vibrato = 2 := by
  have h := c6_merge_max_amended
    ⟨62, 0, 1, 0, 0, 0, 0, 0, 0, 0, 0, 0⟩ ⟨60, 1, 1, 0, 0, 0, 0, 0, 0, 0, 0, 2⟩
    ⟨1/2, 3/2, 0⟩ (by norm_num) (by norm_num) (by norm_num) (by norm_num)
    (by norm_num) (by norm_num)
  exact h.2.2.2.2.2.2.2.2.1

theorem dicList_stdDic_pull : dicList stdDic pullKey = [3] := rfl

theorem dicList_stdDic_hamm : dicList stdDic hammKey = [1] := rfl

theorem dicList_stdDic_slide : dicList stdDic slideKey = [4] := rfl

theorem dicRevLookup_stdDic_3 : dicRevLookup stdDic 3 = some pullKey := rfl

theorem dicRevLookup_stdDic_1 : dicRevLookup stdDic 1 = some hammKey := rfl

theorem dicRevLookup_stdDic_4 : dicRevLookup stdDic 4 = some slideKey := rfl

theorem hammKey_ne_pullKey : hammKey ≠ pullKey := by decide

theorem slideKey_ne_pullKey : slideKey ≠ pullKey := by decide

theorem slideKey_ne_hammKey : slideKey ≠ hammKey := by decide

/-- C7 (counterexample): a slide-labelled candidate whose window spans the
notes `(60,0,1)` — which already carries the non-zero marker `slide = 4` — and
`(62,1,1)` *overwrites* the existing marker: the slide branch of
`update_pull_hamm_slide` sets `slide = 1` / `slide = 2` unconditionally,
unlike the pull and hammer branches, which check for existing non-zero
values. -/
theorem c7_overwrite_counterexample :
    update_pull_hamm_slide
        [⟨60, 0, 1, 0, 0, 0, 0, 0, 4, 0, 0, 0⟩, ⟨62, 1, 1, 0, 0, 0, 0, 0, 0, 0, 0, 0⟩]
        [⟨1/2, 3/2, 4⟩] stdDic =
      [⟨60, 0, 1, 0, 0, 0, 0, 0, 1, 0, 0, 0⟩, ⟨62, 1, 1, 0, 0, 0, 0, 0, 2, 0, 0, 0⟩] ∧
    ((update_pull_hamm_slide
        [⟨60, 0, 1, 0, 0, 0, 0, 0, 4, 0, 0, 0⟩, ⟨62, 1, 1, 0, 0, 0, 0, 0, 0, 0, 0, 0⟩]
        [⟨1/2, 3/2, 4⟩] stdDic).getD 0 default).slide ≠
      (([⟨60, 0, 1, 0, 0, 0, 0, 0, 4, 0, 0, 0⟩,
         ⟨62, 1, 1, 0, 0, 0, 0, 0, 0, 0, 0, 0⟩] : List ESNRow).getD 0 default).slide := by
  have h : update_pull_hamm_slide
      [⟨60, 0, 1, 0, 0, 0, 0, 0, 4, 0, 0, 0⟩, ⟨62, 1, 1, 0, 0, 0, 0, 0, 0, 0, 0, 0⟩]
      [⟨1/2, 3/2, 4⟩] stdDic =
      [⟨60, 0, 1, 0, 0, 0, 0, 0, 1, 0, 0, 0⟩, ⟨62, 1, 1, 0, 0, 0, 0, 0, 2, 0, 0, 0⟩] := by
    norm_num [update_pull_hamm_slide, uphsInner, uphsStep,
      dicList_stdDic_pull, dicList_stdDic_hamm, dicList_stdDic_slide,
      dicRevLookup_stdDic_4, slideKey_ne_pullKey, slideKey_ne_hammKey]
  refine ⟨h, ?_⟩
  rw [h]
  norm_num

/-- C7 (amended): for a candidate whose window spans two consecutive notes,
the pull and hammer branches of `update_pull_hamm_slide` never overwrite an
existing non-zero marker in their technique column, and reapplying the same
candidate is a no-op; the slide branch instead sets `slide = 1` on the first
note and `slide = 2` on the second unconditionally (overwriting any prior
value, see the counterexample), and reapplying the same slide candidate is
still a no-op only because it rewrites those same values. -/
theorem c7_tagging_amended (r0 r1 : ESNRow) (c : CRow)
    (hst : c.cstart ≠ 0)
    (h1 : r0.onset < c.cstart) (h2 : c.cstart < r0.onset + r0.duration)
    (h3 : r1.onset < c.cend) (h4 : c.cend < r1.onset + r1.duration) :
    (c.clabel = 3 →
      (r0.pull ≠ 0 →
        ((update_pull_hamm_slide [r0, r1] [c] stdDic).getD 0 default).pull = r0.pull) ∧
      (r1.pull ≠ 0 →
        ((update_pull_hamm_slide [r0, r1] [c] stdDic).getD 1 default).pull = r1.pull) ∧
      update_pull_hamm_slide (update_pull_hamm_slide [r0, r1] [c] stdDic) [c] stdDic =
        update_pull_hamm_slide [r0, r1] [c] stdDic) ∧
    (c.clabel = 1 →
      (r0.hammer ≠ 0 →
        ((update_pull_hamm_slide [r0, r1] [c] stdDic).getD 0 default).hammer = r0.hammer) ∧
      (r1.hammer ≠ 0 →
        ((update_pull_hamm_slide [r0, r1] [c] stdDic).getD 1 default).hammer = r1.hammer) ∧
      update_pull_hamm_slide (update_pull_hamm_slide [r0, r1] [c] stdDic) [c] stdDic =
        update_pull_hamm_slide [r0, r1] [c] stdDic) ∧
    (c.clabel = 4 →
      ((update_pull_hamm_slide [r0, r1] [c] stdDic).getD 0 default).slide = 1 ∧
      ((update_pull_hamm_slide [r0, r1] [c] stdDic).getD 1 default).slide = 2 ∧
      update_pull_hamm_slide (update_pull_hamm_slide [r0, r1] [c] stdDic) [c] stdDic =
        update_pull_hamm_slide [r0, r1] [c] stdDic) := by
  refine ⟨fun hlab => ?_, fun hlab => ?_, fun hlab => ?_⟩
  · rcases eq_or_ne r0.pull 0 with hp0 | hp0 <;> rcases eq_or_ne r1.pull 0 with hp1 | hp1 <;>
      simp [update_pull_hamm_slide, uphsInner, uphsStep,
        dicList_stdDic_pull, dicList_stdDic_hamm, dicList_stdDic_slide,
        dicRevLookup_stdDic_3, hammKey_ne_pullKey,
        hlab, hst, h1, h2, h3, h4, hp0, hp1]
  · rcases eq_or_ne r0.hammer 0 with hp0 | hp0 <;> rcases eq_or_ne r1.hammer 0 with hp1 | hp1 <;>
      simp [update_pull_hamm_slide, uphsInner, uphsStep,
        dicList_stdDic_pull, dicList_stdDic_hamm, dicList_stdDic_slide,
        dicRevLookup_stdDic_1, hammKey_ne_pullKey,
        hlab, hst, h1, h2, h3, h4, hp0, hp1]
  · simp [update_pull_hamm_slide, uphsInner, uphsStep,
      dicList_stdDic_pull, dicList_stdDic_hamm, dicList_stdDic_slide,
      dicRevLookup_stdDic_4, slideKey_ne_pullKey, slideKey_ne_hammKey,
      hlab, hst, h1, h2, h3, h4]

/-- C7 (witness): the amended tagging theorem at a concrete instance — a pull
candidate over the pair `(60,0,1)` (already carrying `pull = 5`) and
`(62,1,1)` leaves the existing marker `pull = 5` untouched. -/
theorem c7_tagging_amended_witness :
    ((update_pull_hamm_slide
        [⟨60, 0, 1, 0, 0, 0, 5, 0, 0, 0, 0, 0⟩, ⟨62, 1, 1, 0, 0, 0, 0, 0, 0, 0, 0, 0⟩]
        [⟨1/2, 3/2, 3⟩] stdDic).getD 0 default).pull = 5 := by
  have h := c7_tagging_amended
    ⟨60, 0, 1, 0, 0, 0, 5, 0, 0, 0, 0, 0⟩ ⟨62, 1, 1, 0, 0, 0, 0, 0, 0, 0, 0, 0⟩
    ⟨1/2, 3/2, 3⟩ (by norm_num) (by norm_num) (by norm_num) (by norm_num) (by norm_num)
  exact (h.1 rfl).1 (by norm_num)
